import Mathlib

/-!
# Verification of the AstroData container append/merge core

The repository's container logic (extension identity, versioning policy,
append/merge, slicing views) is exercised by its test suite
(`astrodata/scripts/test/test_ad_append.py`,
`astrodata/test/test_astrodata_fits_object_construction.py`) while the
implementation module itself is not present in the source tree
(`astrodata/core.py` only contains the `DataProvider`/`AstroData` shell and
`__getitem__` delegating to a sliced provider).  The operational
definitions below are therefore modelled from the specification
(§3 Data model, §4.1 Extension Index, §4.2 Versioning Policy,
§4.3 Container) and checked against the behaviour recorded in the tests.
-/

/-- Errors raised by the container core (spec §7: `ConflictError`,
`NotFoundError`, `ValueError`-class). -/
inductive ADError
  | conflict
  | valueError
  | notFound
deriving DecidableEq, Repr

deriving instance DecidableEq for Except

namespace AD

/-- Modelled from the spec: an Extension (spec §3) — a named, optionally
versioned unit.  `payload` is a reference (an id into a shared payload
store) to image/table data; `attrs` holds data attached directly under
this extension (masks, variance, arbitrary attachments) which carry no
version number. -/
structure Ext where
  name : String
  ver : Option Nat
  payload : Nat
  attrs : List (String × Nat)
deriving DecidableEq, Repr

/-- Modelled from the spec: a Container (spec §3) — primary metadata
(modelled as an opaque id `phu`) plus the ordered Extension Index. -/
structure Container where
  phu : Nat
  exts : List Ext
deriving DecidableEq, Repr

/-- Whether the container holds a versioned extension of name `n`. -/
def hasVersioned (c : Container) (n : String) : Bool :=
  c.exts.any (fun e => e.name == n && e.ver.isSome)

/-- Modelled from the spec: `max_version(name)` of the Extension Index
(spec §4.1) — the highest version currently assigned to name `n`
(0 when none). -/
def maxVerName (c : Container) (n : String) : Nat :=
  (c.exts.filterMap (fun e => if e.name == n then e.ver else none)).foldr max 0

/-- Modelled from the spec: `max_version(None)` (spec §4.1) — the highest
version across all versioned extensions regardless of name. -/
def globalMaxVer (c : Container) : Nat :=
  (c.exts.filterMap Ext.ver).foldr max 0

/-- Modelled from the spec: the Versioning Policy base (spec §4.2) —
`max_version(N)` when N already exists in the host, else
`max_version(None)`. -/
def mergeBase (c : Container) (n : String) : Nat :=
  if hasVersioned c n then maxVerName c n else globalMaxVer c

/-- Modelled from the spec: automatic version for a single append
(spec §4.2): base + 1. -/
def autoVer (c : Container) (n : String) : Nat :=
  mergeBase c n + 1

/-- Whether the (name, version) identity is already present in the list
(`version = none` addresses the singleton slot of the name). -/
def occupied (l : List Ext) (n : String) (v : Option Nat) : Bool :=
  l.any (fun x => x.name == n && x.ver == v)

/-- Modelled from the spec: `Index.insert` iterated (spec §4.1) — record
each new extension at the end, failing with `ConflictError` when its
(name, version) identity is already present. -/
def insertAll (host : List Ext) : List Ext → Except ADError (List Ext)
  | [] => .ok host
  | e :: rest =>
    if occupied host e.name e.ver then .error .conflict
    else insertAll (host ++ [e]) rest

/-- Modelled from the spec: bulk-merge renumbering (spec §4.2) — each
versioned incoming extension of name N receives `base N + k` where `k` is
its 1-based rank among versioned incoming extensions of name N;
singletons (no version) pass through unchanged.  `cnt` accumulates the
number of versioned extensions of each name already renumbered. -/
def renumberFrom (base : String → Nat) (cnt : String → Nat) : List Ext → List Ext
  | [] => []
  | e :: rest =>
    match e.ver with
    | none => e :: renumberFrom base cnt rest
    | some _ =>
      { e with ver := some (base e.name + cnt e.name + 1) } ::
        renumberFrom base (fun m => if m = e.name then cnt e.name + 1 else cnt m) rest

/-- Modelled from the spec: container-to-container merge,
`append(moredata=src, auto_number)` (spec §4.2, §4.3).  With
auto-numbering the incoming extensions are renumbered from the host's
pre-merge bases; without it they keep their versions; either way each is
inserted in order, with conflict checking, and the host's primary
metadata is retained.  The operation is atomic: an error produces no
mutated container. -/
def appendContainer (c : Container) (src : Container) (autoNumber : Bool) :
    Except ADError Container :=
  let incoming :=
    if autoNumber then renumberFrom (mergeBase c) (fun _ => 0) src.exts else src.exts
  (insertAll c.exts incoming).map (fun l => { c with exts := l })

/-- Modelled from the spec: the version chosen for a single-extension
append (spec §4.2).  A singleton (versionless) extension stays
versionless.  Without auto-numbering, an explicitly supplied version (or
the extension's own) is used as-is.  With auto-numbering, an explicit
version is honored verbatim when free and falls through to the automatic
rule when occupied; with no explicit version the automatic rule applies. -/
def chooseVer (c : Container) (e : Ext) (explicitVer : Option Nat)
    (autoNumber : Bool) : Option Nat :=
  match e.ver with
  | none => none
  | some v =>
    match explicitVer, autoNumber with
    | some w, false => some w
    | none, false => some v
    | some w, true =>
      if occupied c.exts e.name (some w) then some (autoVer c e.name) else some w
    | none, true => some (autoVer c e.name)

/-- Modelled from the spec: single-extension append,
`append(header=…, data=…, extver=…, auto_number)` (spec §4.2, §4.3). -/
def appendSingle (c : Container) (e : Ext) (explicitVer : Option Nat)
    (autoNumber : Bool) : Except ADError Container :=
  (insertAll c.exts [{ e with ver := chooseVer c e explicitVer autoNumber }]).map
    (fun l => { c with exts := l })

/-- The container a caller observes after an append attempt: the updated
container on success, the untouched host on failure (spec §4.3: an append
either fully succeeds or fully fails, no partial mutation). -/
def orKeep (c : Container) (r : Except ADError Container) : Container :=
  match r with
  | .ok c' => c'
  | .error _ => c

/-- A bare data source handed to a root-level append: a raw image array
or a table, identified by a payload-store id. -/
inductive RootSource
  | arr (pid : Nat)
  | table (pid : Nat)
deriving DecidableEq, Repr

/-- Modelled from the spec: root-level `append(source, name=…)`
(spec §4.3) for bare arrays and tables.  A bare array defaults to the
science name "SCI" (as `test_append_array_to_root_no_name` records) and is
auto-versioned; any other name for a root-level array is a disallowed
attachment target and fails with a `ValueError`-class error (mask,
variance and arbitrary names are sibling/attachment-only at the root).
A bare table requires an explicit caller-supplied name at the root and
otherwise fails with a `ValueError`-class error; a named table is recorded
as a versionless singleton. -/
def appendRoot (c : Container) (s : RootSource) (name : Option String) :
    Except ADError Container :=
  match s with
  | .arr pid =>
    let n := name.getD "SCI"
    if n = "SCI" then
      (insertAll c.exts [⟨"SCI", some (autoVer c "SCI"), pid, []⟩]).map
        (fun l => { c with exts := l })
    else .error .valueError
  | .table pid =>
    match name with
    | none => .error .valueError
    | some n =>
      (insertAll c.exts [⟨n, none, pid, []⟩]).map (fun l => { c with exts := l })

/-- Modelled from the spec: appending data directly onto an existing
single extension (spec §4.2 last rule, §4.3) — `ad[i].append(data, name)`.
The root-only science name "SCI" is a disallowed attachment target on a
specific extension and fails with a `ValueError`-class error; any other
name attaches the payload under the extension, consuming no version
number and leaving the top-level extension sequence in place. -/
def extAppend (c : Container) (i : Nat) (n : String) (pid : Nat) :
    Except ADError Container :=
  if n = "SCI" then .error .valueError
  else
    match c.exts[i]? with
    | none => .error .notFound
    | some e =>
      .ok { c with exts := c.exts.set i { e with attrs := e.attrs ++ [(n, pid)] } }

/-- A world of containers sharing one payload store, used to express the
reference-sharing semantics of slicing views (spec §4.3 `__getitem__`,
§3 lifecycle): payloads live in `heap`, containers refer to them by id. -/
structure World where
  heap : List Int
  conts : List Container
deriving DecidableEq, Repr

/-- Modelled from the spec: positional slicing `c[i]` (spec §4.3,
`core.py` `AstroData.__getitem__`) — registers a new container over the
selected extension, sharing the extension record (hence its payload
reference) with the original, not copying the data. -/
def mkView (w : World) (ci i : Nat) : World :=
  match w.conts[ci]? with
  | none => w
  | some c =>
    match c.exts[i]? with
    | none => w
    | some e => { w with conts := w.conts ++ [{ phu := c.phu, exts := [e] }] }

/-- Mutating a payload in place: every container whose extensions refer
to `pid` observes the new value. -/
def writePayload (w : World) (pid : Nat) (v : Int) : World :=
  { w with heap := w.heap.set pid v }

/-- Modelled from the spec: `__delitem__` (spec §4.3) — structural removal
of extension `i` from container `ci` only. -/
def deleteExt (w : World) (ci i : Nat) : World :=
  match w.conts[ci]? with
  | none => w
  | some c => { w with conts := w.conts.set ci { c with exts := c.exts.eraseIdx i } }

/-- Reading the payload data of extension `i` of container `ci` through
the shared store. -/
def readExtData (w : World) (ci i : Nat) : Option Int := do
  let c ← w.conts[ci]?
  let e ← c.exts[i]?
  w.heap[e.payload]?

/-- One container-level mutating operation of the append family
(spec §4.3): a single-extension append or a container-to-container bulk
merge, each with or without auto-numbering. -/
inductive Op
  | single (e : Ext) (explicitVer : Option Nat) (autoNumber : Bool)
  | bulk (src : Container) (autoNumber : Bool)
deriving DecidableEq, Repr

/-- Applying one append-family operation to a container. -/
def applyOp (c : Container) : Op → Except ADError Container
  | .single e ev a => appendSingle c e ev a
  | .bulk src a => appendContainer c src a

/-- Running a sequence of append-family operations, stopping at the first
failure (a failed append leaves no partial state, spec §4.3). -/
def applyOps (c : Container) : List Op → Except ADError Container
  | [] => .ok c
  | o :: rest =>
    match applyOp c o with
    | .ok c' => applyOps c' rest
    | .error err => .error err

/-- The structural uniqueness invariant (spec §3): no two extensions of a
container share both their name and their (optional) version — versioned
(name, version) pairs are pairwise distinct and each singleton name has at
most one instance. -/
def Inv (c : Container) : Prop :=
  c.exts.Pairwise (fun a b => ¬(a.name = b.name ∧ a.ver = b.ver))

/-- Container A of the spec's worked example: three "SCI" extensions
versioned 1–3 (the shape of `testdatafile_1`). -/
def A0 : Container :=
  ⟨0, [⟨"SCI", some 1, 0, []⟩, ⟨"SCI", some 2, 1, []⟩, ⟨"SCI", some 3, 2, []⟩]⟩

/-- Container B of the spec's worked example: a versionless "MDF" plus
"SCI", "VAR", "DQ" at version 1 (the shape of `testdatafile_3`). -/
def B0 : Container :=
  ⟨1, [⟨"MDF", none, 3, []⟩, ⟨"SCI", some 1, 4, []⟩, ⟨"VAR", some 1, 5, []⟩,
       ⟨"DQ", some 1, 6, []⟩]⟩

/-- The expected outcome of `A0.append(moredata=B0, auto_number=True)`. -/
def AB0 : Container :=
  ⟨0, [⟨"SCI", some 1, 0, []⟩, ⟨"SCI", some 2, 1, []⟩, ⟨"SCI", some 3, 2, []⟩,
       ⟨"MDF", none, 3, []⟩, ⟨"SCI", some 4, 4, []⟩, ⟨"VAR", some 4, 5, []⟩,
       ⟨"DQ", some 4, 6, []⟩]⟩

/-! ## Helper lemmas -/

theorem occupied_eq_false_iff (l : List Ext) (n : String) (v : Option Nat) :
    occupied l n v = false ↔ ∀ x ∈ l, ¬(x.name = n ∧ x.ver = v) := by
  simp [occupied]

theorem occupied_append_left {l : List Ext} (l' : List Ext) {n : String}
    {v : Option Nat} (h : occupied l n v = true) : occupied (l ++ l') n v = true := by
  simp only [occupied, List.any_append, Bool.or_eq_true]
  exact Or.inl h

theorem insertAll_ok_eq (new : List Ext) :
    ∀ host r, insertAll host new = .ok r → r = host ++ new := by
  induction new with
  | nil =>
    intro host r h
    simp only [insertAll] at h
    cases h
    simp
  | cons e rest ih =>
    intro host r h
    simp only [insertAll] at h
    split at h
    · cases h
    · have := ih _ _ h
      simp [this, List.append_assoc]

theorem insertAll_pairwise (new : List Ext) :
    ∀ host r, host.Pairwise (fun a b => ¬(a.name = b.name ∧ a.ver = b.ver)) →
      insertAll host new = .ok r →
      r.Pairwise (fun a b => ¬(a.name = b.name ∧ a.ver = b.ver)) := by
  induction new with
  | nil =>
    intro host r hp h
    simp only [insertAll] at h
    cases h
    exact hp
  | cons e rest ih =>
    intro host r hp h
    simp only [insertAll] at h
    split at h
    · cases h
    · next hocc =>
      apply ih _ _ _ h
      rw [List.pairwise_append]
      refine ⟨hp, List.pairwise_singleton _ _, ?_⟩
      intro a ha b hb
      rcases List.mem_singleton.mp hb with rfl
      exact (occupied_eq_false_iff host b.name b.ver).mp
        (Bool.not_eq_true _ ▸ eq_false_of_ne_true hocc) a ha

theorem insertAll_conflict (new : List Ext) :
    ∀ host x, x ∈ new → occupied host x.name x.ver = true →
      insertAll host new = .error .conflict := by
  induction new with
  | nil =>
    intro host x hx
    cases hx
  | cons e rest ih =>
    intro host x hx hocc
    simp only [insertAll]
    by_cases h : occupied host e.name e.ver = true
    · simp [h]
    · rcases List.mem_cons.mp hx with rfl | hx'
      · exact absurd hocc h
      · simp only [h, if_false, Bool.false_eq_true]
        exact ih _ _ hx' (occupied_append_left [e] hocc)

theorem except_map_mk_ok (c c' : Container) (r : Except ADError (List Ext))
    (h : r.map (fun l => { c with exts := l }) = .ok c') :
    ∃ l, r = .ok l ∧ c'.exts = l := by
  cases r with
  | error err => simp [Except.map] at h
  | ok l =>
    refine ⟨l, rfl, ?_⟩
    simp only [Except.map] at h
    cases h
    rfl

theorem map_set_same {α β : Type} (f : α → β) :
    ∀ (l : List α) (i : Nat) (a b : α), l[i]? = some a → f b = f a →
      (l.set i b).map f = l.map f := by
  intro l
  induction l with
  | nil =>
    intro i a b h
    cases h
  | cons x xs ih =>
    intro i a b h hfb
    cases i with
    | zero =>
      simp only [List.getElem?_cons_zero, Option.some.injEq] at h
      subst h
      simp [List.set, hfb]
    | succ j =>
      simp only [List.getElem?_cons_succ] at h
      simp [List.set, ih j a b h hfb]

theorem renumber_names_vers (b cnt : String → Nat) :
    ∀ (src : List Ext) (i : Nat),
      ((renumberFrom b cnt src).get? i).map Ext.name = (src.get? i).map Ext.name ∧
      ((renumberFrom b cnt src).get? i).map (fun e => e.ver.isSome)
        = (src.get? i).map (fun e => e.ver.isSome) := by
  intro src
  induction src generalizing cnt with
  | nil => intro i; simp [renumberFrom]
  | cons e rest ih =>
    intro i
    obtain ⟨nm, vr, pl, ats⟩ := e
    cases vr with
    | none =>
      cases i with
      | zero => simp [renumberFrom]
      | succ j => simpa [renumberFrom] using ih cnt j
    | some v =>
      cases i with
      | zero => simp [renumberFrom]
      | succ j => simpa [renumberFrom] using ih _ j

theorem renumber_group (N : String) :
    ∀ (src : List Ext) (b cnt : String → Nat),
      ((renumberFrom b cnt src).filter (fun e => e.name == N && e.ver.isSome)).map Ext.ver
        = (List.range ((src.filter (fun e => e.name == N && e.ver.isSome)).length)).map
            (fun k => some (b N + cnt N + 1 + k)) := by
  intro src
  induction src with
  | nil => intro b cnt; simp [renumberFrom]
  | cons e rest ih =>
    intro b cnt
    obtain ⟨nm, vr, pl, ats⟩ := e
    cases vr with
    | none =>
      simp only [renumberFrom]
      rw [List.filter_cons, List.filter_cons]
      simp only [Option.isSome_none, Bool.and_false, Bool.false_eq_true, if_false]
      exact ih b cnt
    | some v =>
      by_cases hn : nm = N
      · subst hn
        simp only [renumberFrom]
        rw [List.filter_cons, List.filter_cons]
        simp only [Option.isSome_some, Bool.and_true, beq_self_eq_true, if_true]
        rw [List.length_cons, List.range_succ_eq_map, List.map_cons, List.map_cons,
          List.map_map]
        simp only [List.cons.injEq]
        constructor
        · trivial
        · rw [ih b (fun m => if m = nm then cnt nm + 1 else cnt m)]
          apply List.map_congr_left
          intro k _
          simp only [Function.comp_apply, if_pos rfl, if_true, Option.some.injEq]
          omega
      · simp only [renumberFrom]
        rw [List.filter_cons, List.filter_cons]
        have hb : (nm == N) = false := beq_eq_false_iff_ne.mpr hn
        simp only [hb, Bool.false_and, Bool.false_eq_true, if_false]
        rw [ih b (fun m => if m = nm then cnt nm + 1 else cnt m)]
        apply List.map_congr_left
        intro k _
        congr 2
        rw [if_neg (fun h => hn h.symm)]

/-! ## Claim theorems -/

/-- Claim C1: merging container B (one versionless "MDF" and one each of
"SCI", "VAR", "DQ" at version 1) into host A (three "SCI" extensions
versioned 1–3) with auto-numbering succeeds and yields 7 extensions: the
original SCI 1–3 unchanged in place, then MDF with no version, then SCI,
VAR and DQ each at version 4 (A's pre-merge global maximum 3, plus 1), in
B's original relative order. -/
theorem claim1_example_merge :
    appendContainer A0 B0 true = .ok AB0 ∧
    AB0.exts.length = 7 ∧
    AB0.exts.take 3 = A0.exts ∧
    (AB0.exts.map (fun e => (e.name, e.ver))).drop 3 =
      [("MDF", none), ("SCI", some 4), ("VAR", some 4), ("DQ", some 4)] ∧
    globalMaxVer A0 = 3 := by decide

/-- Claim C2: in a bulk merge with auto-numbering, for every versioned
name N, the K incoming extensions of name N receive the consecutive
versions base+1, …, base+K in their original relative order, where base is
the host's maximum version for N when N exists in the host and the host's
global maximum version otherwise; every name group is renumbered
independently by this rule from the pre-merge host. -/
theorem claim2_bulk_merge_consecutive (c c' src : Container) (N : String)
    (h : appendContainer c src true = .ok c') :
    c'.exts = c.exts ++ renumberFrom (mergeBase c) (fun _ => 0) src.exts ∧
    ((renumberFrom (mergeBase c) (fun _ => 0) src.exts).filter
        (fun e => e.name == N && e.ver.isSome)).map Ext.ver
      = (List.range
            ((src.exts.filter (fun e => e.name == N && e.ver.isSome)).length)).map
          (fun k => some (mergeBase c N + 1 + k)) ∧
    (hasVersioned c N = true → mergeBase c N = maxVerName c N) ∧
    (hasVersioned c N = false → mergeBase c N = globalMaxVer c) := by
  refine ⟨?_, ?_, ?_, ?_⟩
  · simp only [appendContainer, if_true] at h
    obtain ⟨l, hl, hce⟩ := except_map_mk_ok c c' _ h
    rw [hce, insertAll_ok_eq _ _ _ hl]
  · rw [renumber_group N src.exts (mergeBase c) (fun _ => 0)]
  · intro hv
    simp [mergeBase, hv]
  · intro hv
    simp [mergeBase, hv]

/-- Witness for C2 at the spec's worked example (host A0, source B0,
name "SCI"). -/
theorem claim2_witness :
    AB0.exts = A0.exts ++ renumberFrom (mergeBase A0) (fun _ => 0) B0.exts ∧
    ((renumberFrom (mergeBase A0) (fun _ => 0) B0.exts).filter
        (fun e => e.name == "SCI" && e.ver.isSome)).map Ext.ver
      = (List.range
            ((B0.exts.filter (fun e => e.name == "SCI" && e.ver.isSome)).length)).map
          (fun k => some (mergeBase A0 "SCI" + 1 + k)) ∧
    (hasVersioned A0 "SCI" = true → mergeBase A0 "SCI" = maxVerName A0 "SCI") ∧
    (hasVersioned A0 "SCI" = false → mergeBase A0 "SCI" = globalMaxVer A0) :=
  claim2_bulk_merge_consecutive A0 AB0 B0 "SCI" (by decide)

/-- A host refuting claim C3 as stated: its global maximum version is 5
(held by "VAR") while "SCI" only reaches version 1. -/
def cexHost : Container := ⟨0, [⟨"SCI", some 1, 0, []⟩, ⟨"VAR", some 5, 1, []⟩]⟩

/-- The versioned "SCI" extension appended to `cexHost`. -/
def cexNew : Ext := ⟨"SCI", some 1, 2, []⟩

/-- Counterexample to claim C3 as stated: appending a versioned "SCI"
extension with auto-numbering to a host whose global maximum version is
M = 5 but whose "SCI" group only reaches 1 assigns version 2 — not
strictly greater than M, and not M+1 although the name already exists. -/
theorem claim3_counterexample :
    globalMaxVer cexHost = 5 ∧
    hasVersioned cexHost "SCI" = true ∧
    appendSingle cexHost cexNew none true =
      .ok ⟨0, [⟨"SCI", some 1, 0, []⟩, ⟨"VAR", some 5, 1, []⟩,
               ⟨"SCI", some 2, 2, []⟩]⟩ ∧
    ¬(2 > 5) ∧ (2 : Nat) ≠ 5 + 1 := by decide

/-- Claim C3 (amended): a single-extension auto-numbered append of a
versioned name N assigns version `max_version(N) + 1` when N already
exists in the host and `max_version(None) + 1` — the global maximum M
plus one — when N is new; the result exceeds the global maximum exactly
in the new-name case or when N's own maximum equals it. -/
theorem claim3_single_append_version (c c' : Container) (e : Ext) (v : Nat)
    (hv : e.ver = some v) (h : appendSingle c e none true = .ok c') :
    c'.exts = c.exts ++ [{ e with ver := some (mergeBase c e.name + 1) }] ∧
    (hasVersioned c e.name = true → mergeBase c e.name = maxVerName c e.name) ∧
    (hasVersioned c e.name = false → mergeBase c e.name = globalMaxVer c) := by
  refine ⟨?_, ?_, ?_⟩
  · simp only [appendSingle, chooseVer, hv, autoVer] at h
    obtain ⟨l, hl, hce⟩ := except_map_mk_ok c c' _ h
    rw [hce, insertAll_ok_eq _ _ _ hl]
  · intro hvn
    simp [mergeBase, hvn]
  · intro hvn
    simp [mergeBase, hvn]

/-- Witness for C3 (amended): appending "VAR" version 2 from another
container to host A0 (SCI 1–3, global max 3) yields VAR version 4
(`ad_append_test8`). -/
theorem claim3_witness :
    (⟨0, A0.exts ++ [⟨"VAR", some 4, 9, []⟩]⟩ : Container).exts
      = A0.exts ++ [{ (⟨"VAR", some 2, 9, []⟩ : Ext) with
          ver := some (mergeBase A0 "VAR" + 1) }] ∧
    (hasVersioned A0 "VAR" = true → mergeBase A0 "VAR" = maxVerName A0 "VAR") ∧
    (hasVersioned A0 "VAR" = false → mergeBase A0 "VAR" = globalMaxVer A0) :=
  claim3_single_append_version A0 ⟨0, A0.exts ++ [⟨"VAR", some 4, 9, []⟩]⟩
    ⟨"VAR", some 2, 9, []⟩ 2 rfl (by decide)

/-- Claim C4: with auto-numbering enabled and an explicit version w
supplied, the append assigns exactly w when the (name, w) pair is free in
the host, and falls through to the automatic rule only when it is
occupied. -/
theorem claim4_explicit_version_hint (c c' : Container) (e : Ext) (v w : Nat)
    (hv : e.ver = some v) (h : appendSingle c e (some w) true = .ok c') :
    (occupied c.exts e.name (some w) = false →
      c'.exts = c.exts ++ [{ e with ver := some w }]) ∧
    (occupied c.exts e.name (some w) = true →
      c'.exts = c.exts ++ [{ e with ver := some (autoVer c e.name) }]) := by
  constructor
  · intro hocc
    simp only [appendSingle, chooseVer, hv, hocc, Bool.false_eq_true, if_false] at h
    obtain ⟨l, hl, hce⟩ := except_map_mk_ok c c' _ h
    rw [hce, insertAll_ok_eq _ _ _ hl]
  · intro hocc
    simp only [appendSingle, chooseVer, hv, hocc, if_true] at h
    obtain ⟨l, hl, hce⟩ := except_map_mk_ok c c' _ h
    rw [hce, insertAll_ok_eq _ _ _ hl]

/-- Witness for C4 at `ad_append_test11`: explicit version 10 into host
A0 whose "SCI" versions are 1–3 is honored verbatim. -/
theorem claim4_witness :
    (occupied A0.exts "SCI" (some 10) = false →
      (⟨0, A0.exts ++ [⟨"SCI", some 10, 3, []⟩]⟩ : Container).exts
        = A0.exts ++ [{ (⟨"SCI", some 1, 3, []⟩ : Ext) with ver := some 10 }]) ∧
    (occupied A0.exts "SCI" (some 10) = true →
      (⟨0, A0.exts ++ [⟨"SCI", some 10, 3, []⟩]⟩ : Container).exts
        = A0.exts ++ [{ (⟨"SCI", some 1, 3, []⟩ : Ext) with
            ver := some (autoVer A0 "SCI") }]) :=
  claim4_explicit_version_hint A0 ⟨0, A0.exts ++ [⟨"SCI", some 10, 3, []⟩]⟩
    ⟨"SCI", some 1, 3, []⟩ 1 10 rfl (by decide)

/-- Claim C5: appending to an occupied (name, version) identity without
auto-numbering — as a single append or as a bulk merge carrying any
extension whose identity is occupied in the host — fails with
`ConflictError`, and the caller observes the host container unchanged
(same state, hence same extension count): no partial mutation survives a
failed append. -/
theorem claim5_conflict_rejection (c src : Container) (e : Ext) :
    (occupied c.exts e.name e.ver = true →
      appendSingle c e none false = .error .conflict ∧
      orKeep c (appendSingle c e none false) = c) ∧
    (src.exts.any (fun x => occupied c.exts x.name x.ver) = true →
      appendContainer c src false = .error .conflict ∧
      orKeep c (appendContainer c src false) = c) := by
  constructor
  · intro hocc
    obtain ⟨nm, vr, pl, ats⟩ := e
    have hch : chooseVer c ⟨nm, vr, pl, ats⟩ none false = vr := by
      cases vr <;> rfl
    have herr : appendSingle c ⟨nm, vr, pl, ats⟩ none false = .error .conflict := by
      simp only [appendSingle, hch, insertAll]
      simp only [occupied] at hocc ⊢
      simp only [hocc, if_true]
      rfl
    exact ⟨herr, by rw [herr]; rfl⟩
  · intro hany
    obtain ⟨x, hx, hocc⟩ := List.any_eq_true.mp hany
    have herr : appendContainer c src false = .error .conflict := by
      simp only [appendContainer, Bool.false_eq_true, if_false]
      rw [insertAll_conflict src.exts c.exts x hx hocc]
      rfl
    exact ⟨herr, by rw [herr]; rfl⟩

/-- Witness for C5: host A0 already holds ("SCI", 1), so appending a
"SCI" version-1 extension without auto-numbering, or merging a container
carrying one, is rejected with `ConflictError` and A0 is unchanged
(`ad_append_test13`, `ad_append_test12`). -/
theorem claim5_witness :
    (occupied A0.exts "SCI" (some 1) = true →
      appendSingle A0 ⟨"SCI", some 1, 8, []⟩ none false = .error .conflict ∧
      orKeep A0 (appendSingle A0 ⟨"SCI", some 1, 8, []⟩ none false) = A0) ∧
    ((⟨1, [⟨"SCI", some 1, 8, []⟩]⟩ : Container).exts.any
        (fun x => occupied A0.exts x.name x.ver) = true →
      appendContainer A0 ⟨1, [⟨"SCI", some 1, 8, []⟩]⟩ false = .error .conflict ∧
      orKeep A0 (appendContainer A0 ⟨1, [⟨"SCI", some 1, 8, []⟩]⟩ false) = A0) :=
  claim5_conflict_rejection A0 ⟨1, [⟨"SCI", some 1, 8, []⟩]⟩ ⟨"SCI", some 1, 8, []⟩

/-- A one-extension host used for concrete root-append evidence. -/
def T0 : Container := ⟨0, [⟨"SCI", some 1, 0, []⟩]⟩

/-- Counterexample to claim C6 as stated: appending a bare array to the
container root without a name does not fail — it succeeds, defaulting to
name "SCI" (`test_append_array_to_root_no_name` asserts the success and
the default name).  Only the bare-table case fails with the
`ValueError`-class error. -/
theorem claim6_counterexample :
    appendRoot T0 (RootSource.arr 9) none =
      .ok ⟨0, [⟨"SCI", some 1, 0, []⟩, ⟨"SCI", some 2, 9, []⟩]⟩ ∧
    appendRoot T0 (RootSource.arr 9) none ≠ .error ADError.valueError := by decide

/-- Claim C6 (amended): appending a bare table to the container root
without a name fails with a `ValueError`-class error (a bare array instead
defaults to name "SCI" and succeeds), while appending an array to a
specific existing extension under a non-root-only name succeeds, leaves
the top-level extension count unchanged, and consumes no version number
(every top-level (name, version) identity is untouched). -/
theorem claim6_root_vs_extension (c : Container) (pid i : Nat) (n : String)
    (e : Ext) (hn : n ≠ "SCI") (hi : c.exts[i]? = some e) :
    appendRoot c (.table pid) none = .error .valueError ∧
    ∃ c', extAppend c i n pid = .ok c' ∧
      c'.exts.length = c.exts.length ∧
      c'.exts.map (fun x => (x.name, x.ver)) = c.exts.map (fun x => (x.name, x.ver)) := by
  refine ⟨rfl, ?_⟩
  refine ⟨{ c with exts := c.exts.set i { e with attrs := e.attrs ++ [(n, pid)] } },
    ?_, ?_, ?_⟩
  · simp only [extAppend, hn, if_false, hi]
  · simp
  · exact map_set_same _ c.exts i e _ hi rfl

/-- Witness for C6 (amended) at host T0, attaching under the arbitrary
name "ARBITRARY" on extension 0
(`test_append_array_to_extension_with_arbitrary_name`). -/
theorem claim6_witness :
    appendRoot T0 (RootSource.table 9) none = .error .valueError ∧
    ∃ c', extAppend T0 0 "ARBITRARY" 9 = .ok c' ∧
      c'.exts.length = T0.exts.length ∧
      c'.exts.map (fun x => (x.name, x.ver)) = T0.exts.map (fun x => (x.name, x.ver)) :=
  claim6_root_vs_extension T0 9 0 "ARBITRARY" ⟨"SCI", some 1, 0, []⟩
    (by decide) (by decide)

/-- Claim C7: attaching a recognized sibling-only name — the mask "DQ" or
the uncertainty "VAR" — at the container root fails with a
`ValueError`-class error, and attaching the root-only name "SCI" on a
specific extension also fails with a `ValueError`-class error. -/
theorem claim7_attachment_scope (c : Container) (pid i : Nat) :
    appendRoot c (.arr pid) (some "DQ") = .error .valueError ∧
    appendRoot c (.arr pid) (some "VAR") = .error .valueError ∧
    extAppend c i "SCI" pid = .error .valueError := by
  refine ⟨?_, ?_, ?_⟩
  · simp [appendRoot]
  · simp [appendRoot]
  · simp [extAppend]

theorem applyOp_inv (c c' : Container) (o : Op) (hInv : Inv c)
    (h : applyOp c o = .ok c') : Inv c' := by
  cases o with
  | single e ev a =>
    simp only [applyOp, appendSingle] at h
    obtain ⟨l, hl, hce⟩ := except_map_mk_ok c c' _ h
    rw [Inv, hce]
    exact insertAll_pairwise _ _ _ hInv hl
  | bulk src a =>
    simp only [applyOp, appendContainer] at h
    obtain ⟨l, hl, hce⟩ := except_map_mk_ok c c' _ h
    rw [Inv, hce]
    exact insertAll_pairwise _ _ _ hInv hl

/-- Claim C8: starting from any container satisfying the uniqueness
invariant — pairwise-distinct (name, version) pairs among versioned
extensions and at most one extension per singleton name — every finite
sequence of successful append operations (single appends and bulk merges,
with or without auto-numbering) ends in a container satisfying the same
invariant. -/
theorem claim8_uniqueness_invariant (ops : List Op) :
    ∀ c c', Inv c → applyOps c ops = .ok c' → Inv c' := by
  induction ops with
  | nil =>
    intro c c' hInv h
    simp only [applyOps] at h
    cases h
    exact hInv
  | cons o rest ih =>
    intro c c' hInv h
    simp only [applyOps] at h
    split at h
    · next c'' hc'' => exact ih _ _ (applyOp_inv c c'' o hInv hc'') h
    · cases h

/-- Witness for C8: the empty-host build-up of `ad_append_test14`
followed by the bulk merge of B0 ends in a container satisfying the
uniqueness invariant. -/
theorem claim8_witness :
    Inv ⟨0, [⟨"SCI", some 1, 0, []⟩, ⟨"SCI", some 2, 1, []⟩, ⟨"SCI", some 3, 2, []⟩,
             ⟨"MDF", none, 3, []⟩, ⟨"SCI", some 4, 4, []⟩, ⟨"VAR", some 4, 5, []⟩,
             ⟨"DQ", some 4, 6, []⟩]⟩ :=
  claim8_uniqueness_invariant
    [Op.single ⟨"SCI", some 1, 0, []⟩ none true,
     Op.single ⟨"SCI", some 1, 1, []⟩ none true,
     Op.single ⟨"SCI", some 1, 2, []⟩ none true,
     Op.bulk B0 true]
    ⟨0, []⟩ _ (by rw [Inv]; exact List.Pairwise.nil) (by decide)

/-- Claim C9: positional slicing produces a view that shares the selected
extension record — hence its payload reference — with the original
container; writing the shared payload is observed identically through the
view and through the original, while a structural delete on the view
leaves the original container's extension count unchanged. -/
theorem claim9_view_sharing (w : World) (c : Container) (e : Ext)
    (ci i : Nat) (v : Int) (hc : w.conts[ci]? = some c)
    (he : c.exts[i]? = some e) (hp : e.payload < w.heap.length) :
    (mkView w ci i).conts[w.conts.length]? = some ⟨c.phu, [e]⟩ ∧
    readExtData (writePayload (mkView w ci i) e.payload v) w.conts.length 0 = some v ∧
    readExtData (writePayload (mkView w ci i) e.payload v) ci i = some v ∧
    ((deleteExt (mkView w ci i) w.conts.length 0).conts[ci]?).map
        (fun d => d.exts.length) = some c.exts.length := by
  have hci : ci < w.conts.length := by
    rcases List.getElem?_eq_some_iff.mp hc with ⟨hlt, _⟩
    exact hlt
  have hmk : mkView w ci i = { w with conts := w.conts ++ [⟨c.phu, [e]⟩] } := by
    simp only [mkView, hc, he]
  have hvlen : (w.conts ++ [(⟨c.phu, [e]⟩ : Container)])[w.conts.length]?
      = some ⟨c.phu, [e]⟩ := List.getElem?_concat_length _ _
  have hvleft : (w.conts ++ [(⟨c.phu, [e]⟩ : Container)])[ci]? = some c := by
    rw [← hc]
    exact List.getElem?_append_left hci
  refine ⟨?_, ?_, ?_, ?_⟩
  · rw [hmk]
    exact hvlen
  · rw [hmk, readExtData, writePayload]
    simp only [hvlen, Option.bind_eq_bind, Option.some_bind, List.getElem?_cons_zero]
    exact List.getElem?_set_self hp
  · rw [hmk, readExtData, writePayload]
    simp only [hvleft, Option.bind_eq_bind, Option.some_bind, he]
    exact List.getElem?_set_self hp
  · rw [hmk, deleteExt]
    simp only [hvlen]
    rw [List.getElem?_set_ne (Nat.ne_of_gt hci), hvleft]
    rfl

/-- A two-container world exercising the view semantics: one payload
store, one original container with two "SCI" extensions. -/
def W0 : World :=
  ⟨[10, 20], [⟨0, [⟨"SCI", some 1, 0, []⟩, ⟨"SCI", some 2, 1, []⟩]⟩]⟩

/-- Witness for C9: slicing extension 1 out of W0's container, writing 42
through the shared payload, and deleting from the view. -/
theorem claim9_witness :
    (mkView W0 0 1).conts[W0.conts.length]? =
      some ⟨0, [⟨"SCI", some 2, 1, []⟩]⟩ ∧
    readExtData (writePayload (mkView W0 0 1) 1 42) W0.conts.length 0 = some 42 ∧
    readExtData (writePayload (mkView W0 0 1) 1 42) 0 1 = some 42 ∧
    ((deleteExt (mkView W0 0 1) W0.conts.length 0).conts[0]?).map
        (fun d => d.exts.length) = some 2 :=
  claim9_view_sharing W0 ⟨0, [⟨"SCI", some 1, 0, []⟩, ⟨"SCI", some 2, 1, []⟩]⟩
    ⟨"SCI", some 2, 1, []⟩ 0 1 42 (by decide) (by decide) (by decide)

/-- A host refuting the version clause of claim C10: its "SCI" versions
are 1 and 5, so the auto-assigned version (6) differs from the new
extension count (3). -/
def gapHost : Container := ⟨0, [⟨"SCI", some 1, 0, []⟩, ⟨"SCI", some 5, 1, []⟩]⟩

/-- Counterexample to claim C10 as stated: appending a bare array without
a name to a host whose "SCI" versions are 1 and 5 assigns version 6
(maximum + 1), while the container's new extension count is 3. -/
theorem claim10_counterexample :
    appendRoot gapHost (RootSource.arr 7) none =
      .ok ⟨0, [⟨"SCI", some 1, 0, []⟩, ⟨"SCI", some 5, 1, []⟩,
               ⟨"SCI", some 6, 7, []⟩]⟩ ∧
    (⟨0, [⟨"SCI", some 1, 0, []⟩, ⟨"SCI", some 5, 1, []⟩,
          ⟨"SCI", some 6, 7, []⟩]⟩ : Container).exts.length = 3 ∧
    (6 : Nat) ≠ 3 := by decide

/-- Claim C10 (amended): appending a bare array to the container root
without a name succeeds, appends exactly one extension holding the very
payload reference that was passed in, under the default name "SCI" with
version `autoVer` — one more than the host's maximum "SCI" version (the
global maximum when no "SCI" exists), which equals the new extension
count precisely when the host's extensions are exactly "SCI" 1..n; and
supplying name "SCI" explicitly yields the same result. -/
theorem claim10_default_sci (c c' : Container) (pid : Nat)
    (h : appendRoot c (.arr pid) none = .ok c') :
    c'.exts = c.exts ++ [⟨"SCI", some (autoVer c "SCI"), pid, []⟩] ∧
    c'.exts.length = c.exts.length + 1 ∧
    appendRoot c (.arr pid) (some "SCI") = appendRoot c (.arr pid) none := by
  have hsame : appendRoot c (.arr pid) (some "SCI") = appendRoot c (.arr pid) none := rfl
  simp only [appendRoot, Option.getD, if_pos rfl] at h
  obtain ⟨l, hl, hce⟩ := except_map_mk_ok c c' _ h
  have hexts := insertAll_ok_eq _ _ _ hl
  refine ⟨?_, ?_, hsame⟩
  · rw [hce, hexts]
  · rw [hce, hexts]
    simp

/-- Witness for C10 (amended) at host A0 ("SCI" 1–3): the appended array
becomes "SCI" version 4, matching `test_append_array_to_root_no_name`'s
count-equals-version observation on its 1..n-versioned data. -/
theorem claim10_witness :
    (⟨0, A0.exts ++ [⟨"SCI", some 4, 7, []⟩]⟩ : Container).exts
      = A0.exts ++ [⟨"SCI", some (autoVer A0 "SCI"), 7, []⟩] ∧
    (⟨0, A0.exts ++ [⟨"SCI", some 4, 7, []⟩]⟩ : Container).exts.length
      = A0.exts.length + 1 ∧
    appendRoot A0 (.arr 7) (some "SCI") = appendRoot A0 (.arr 7) none :=
  claim10_default_sci A0 ⟨0, A0.exts ++ [⟨"SCI", some 4, 7, []⟩]⟩ 7 (by decide)

end AD
